import Mathlib

/-!
Verification of the html2pdf-skia painting pipeline (`SkiaRenderer` and its
helpers) against its natural-language specification.

The TypeScript source is shallowly embedded: JS numbers are idealised as
rationals (`ℚ`), with `Option ℚ` where a value can be `NaN`; JS arrays become
`List`s; the renderer's mutable state (active-effect stack, global-alpha
stack, canvas save depth) is threaded explicitly; drawing calls against the
CanvasKit backend are recorded as explicit trace events.  External
collaborators (the stacking-context tree builder, `asString`, path geometry,
fonts, shaders) are parameters of the embedded functions.
-/

set_option autoImplicit false

namespace Html2PdfSkia

/-! ### GlobalAlpha (source: `class GlobalAlpha`, skia-renderer)

The JS class keeps `stack : number[]`, initialised to `[1]`.  `value` reads
`stack[stack.length - 1] ?? 1`; `push` appends; `pop` removes and returns the
last entry only while more than one entry remains, otherwise it returns `1`
and leaves the stack untouched. -/

structure GlobalAlpha where
  stack : List ℚ
deriving DecidableEq

def GlobalAlpha.init : GlobalAlpha := ⟨[1]⟩

def GlobalAlpha.value (g : GlobalAlpha) : ℚ := (g.stack.getLast?).getD 1

def GlobalAlpha.push (g : GlobalAlpha) (v : ℚ) : GlobalAlpha := ⟨g.stack ++ [v]⟩

def GlobalAlpha.pop (g : GlobalAlpha) : GlobalAlpha × ℚ :=
  if 1 < g.stack.length then (⟨g.stack.dropLast⟩, (g.stack.getLast?).getD 1)
  else (g, 1)

/-- An abstract client operation on the global-alpha stack, used to state
that the stack survives every push/pop sequence. -/
inductive AlphaOp where
  | push (v : ℚ)
  | pop
deriving DecidableEq

def alphaStep (g : GlobalAlpha) (op : AlphaOp) : GlobalAlpha :=
  match op with
  | .push v => g.push v
  | .pop => (g.pop).1

def runAlphaOps (ops : List AlphaOp) : GlobalAlpha :=
  ops.foldl alphaStep GlobalAlpha.init

/-! ### Effect stack (source: `applyEffects` / `applyEffect` / `popEffect`)

`applyEffect` does `canvas.save()`, pushes the opacity value for an Opacity
effect, performs the transform / clip calls, and pushes the effect onto
`_activeEffects`.  `popEffect` pops `_activeEffects`, does
`canvas.restore()`, and pops the alpha stack when the popped effect was an
Opacity effect.  `applyEffects(effects)` pops all active effects and then
applies `effects` first to last. -/

inductive SkEffect where
  | opacity (v : ℚ)
  | transform (offsetX offsetY m0 m1 m2 m3 m4 m5 : ℚ)
  | clip (path : ℕ)
deriving DecidableEq

structure EffectState where
  activeEffects : List SkEffect
  globalAlpha : GlobalAlpha
  canvasDepth : ℕ
deriving DecidableEq

def EffectState.init : EffectState := ⟨[], GlobalAlpha.init, 0⟩

def applyEffect (s : EffectState) (e : SkEffect) : EffectState :=
  ⟨s.activeEffects ++ [e],
   match e with
   | .opacity v => s.globalAlpha.push v
   | _ => s.globalAlpha,
   s.canvasDepth + 1⟩

def popEffect (s : EffectState) : EffectState :=
  ⟨s.activeEffects.dropLast,
   match s.activeEffects.getLast? with
   | some (.opacity _) => (s.globalAlpha.pop).1
   | _ => s.globalAlpha,
   s.canvasDepth - 1⟩

def popAllEffects (s : EffectState) : EffectState :=
  if s.activeEffects.length = 0 then s
  else popAllEffects (popEffect s)
termination_by s.activeEffects.length
decreasing_by
  simp only [popEffect, List.length_dropLast]
  omega

def applyEffects (s : EffectState) (req : List SkEffect) : EffectState :=
  req.foldl applyEffect (popAllEffects s)

/-- The opacity values carried by a list of effects, in order; the
global-alpha stack always consists of the base `1` followed by these. -/
def opacities (l : List SkEffect) : List ℚ :=
  l.filterMap (fun e => match e with | .opacity v => some v | _ => none)

/-- The renderer-state invariant maintained by `applyEffects`: the alpha
stack is the base entry followed by the opacity values of the active
effects, and the canvas save depth equals the number of active effects. -/
def EffectInv (s : EffectState) : Prop :=
  s.globalAlpha.stack = 1 :: opacities s.activeEffects ∧
  s.canvasDepth = s.activeEffects.length

/-! ### Dashed/dotted border engine (source: `renderDashedDottedBorder`)

Path segments come from the external `parsePathForBorder`; a segment is a
plain vertex (`Vector`) or a `BezierCurve`.  The side length is taken from
`boxPaths[0]` (its start point) and `boxPaths[1]` (its end point for a
curve, its point otherwise): horizontal sides (0 = top, 2 = bottom) use the
x-delta, vertical sides the y-delta. -/

inductive Seg where
  | vector (x y : ℚ)
  | bezier (sx sy c1x c1y c2x c2y ex ey : ℚ)
deriving DecidableEq

def Seg.startX : Seg → ℚ
  | .vector x _ => x
  | .bezier sx _ _ _ _ _ _ _ => sx

def Seg.startY : Seg → ℚ
  | .vector _ y => y
  | .bezier _ sy _ _ _ _ _ _ => sy

def Seg.endX : Seg → ℚ
  | .vector x _ => x
  | .bezier _ _ _ _ _ _ ex _ => ex

def Seg.endY : Seg → ℚ
  | .vector _ y => y
  | .bezier _ _ _ _ _ _ _ ey => ey

inductive BorderStyleDD where
  | dashed
  | dotted
deriving DecidableEq

/-- Base dash length before balancing:
`width < 3 ? width * 3 : width * 2`, overridden to `width` for dotted. -/
def baseDashLength (style : BorderStyleDD) (width : ℚ) : ℚ :=
  match style with
  | .dotted => width
  | .dashed => if width < 3 then width * 3 else width * 2

/-- Base space length before balancing:
`width < 3 ? width * 2 : width`, overridden to `width` for dotted. -/
def baseSpaceLength (style : BorderStyleDD) (width : ℚ) : ℚ :=
  match style with
  | .dotted => width
  | .dashed => if width < 3 then width * 2 else width

/-- The `numberOfDashes` count of the long-side branch; `Math.floor` on an idealised
JS number is `Int.floor`. -/
def numberOfDashes (dashLength spaceLength length : ℚ) : ℤ :=
  ⌊(length + spaceLength) / (dashLength + spaceLength)⌋

/-- The candidate `minSpace = (length - numberOfDashes * dashLength) / (numberOfDashes - 1)`. -/
def minSpace (dashLength spaceLength length : ℚ) : ℚ :=
  (length - (numberOfDashes dashLength spaceLength length : ℚ) * dashLength) /
    ((numberOfDashes dashLength spaceLength length : ℚ) - 1)

/-- The candidate `maxSpace = (length - (numberOfDashes + 1) * dashLength) / numberOfDashes`. -/
def maxSpace (dashLength spaceLength length : ℚ) : ℚ :=
  (length - ((numberOfDashes dashLength spaceLength length : ℚ) + 1) * dashLength) /
    (numberOfDashes dashLength spaceLength length : ℚ)

/-- The dash/space balancing block.  It is not gated on the border style:
the source runs it for dashed and dotted alike. -/
def balanceDashSpace (dashLength spaceLength length : ℚ) : ℚ × ℚ :=
  if length ≤ dashLength * 2 then
    (dashLength, spaceLength)
  else if length ≤ dashLength * 2 + spaceLength then
    let multiplier := length / (2 * dashLength + spaceLength)
    (dashLength * multiplier, spaceLength * multiplier)
  else
    (dashLength,
      if maxSpace dashLength spaceLength length ≤ 0 ∨
          |spaceLength - minSpace dashLength spaceLength length| <
            |spaceLength - maxSpace dashLength spaceLength length| then
        minSpace dashLength spaceLength length
      else maxSpace dashLength spaceLength length)

/-- Dash and space lengths actually used for a side: base values from the
style and stroke width, then the balancing block. -/
def dashSpace (style : BorderStyleDD) (width length : ℚ) : ℚ × ℚ :=
  balanceDashSpace (baseDashLength style width) (baseSpaceLength style width) length

/-- The side length computed from `boxPaths[0]` / `boxPaths[1]`. -/
def borderSideLength (side : ℕ) (boxPaths : List Seg) : ℚ :=
  let s0 := boxPaths.headD (Seg.vector 0 0)
  let s1 := (boxPaths.drop 1).headD (Seg.vector 0 0)
  if side = 0 ∨ side = 2 then |s0.startX - s1.endX| else |s0.startY - s1.endY|

/-- Native resources allocated by `renderDashedDottedBorder`. -/
inductive ResKind where
  | paint
  | path
  | pathEffect
deriving DecidableEq

/-- Trace events of `renderDashedDottedBorder`.  `makeDash id a b` records
`PathEffect.MakeDash([a, b], 0)` allocating path-effect resource `id`. -/
inductive BorderEv where
  | save
  | restore
  | createRes (id : ℕ) (kind : ResKind)
  | clipPath (id : ℕ)
  | setStrokeWidth (w : ℚ)
  | makeDash (id : ℕ) (a b : ℚ)
  | drawPath (id : ℕ)
  | deleteRes (id : ℕ)
deriving DecidableEq

def BorderEv.isSave : BorderEv → Bool
  | .save => true
  | _ => false

def BorderEv.isRestore : BorderEv → Bool
  | .restore => true
  | _ => false

/-- Trace of one `renderDashedDottedBorder` call.  Resource ids are given in
allocation order.  The call does `canvas.save()`, creates the stroke paint,
clips to the border-box path when dashed (creating and deleting that path),
computes the balanced dash pattern, sets the stroke width (`width` for
dotted, `width * 2 + 1.1` for dashed), creates the dash path effect
(`[0, dash + space]` for dotted, `[dash, space]` for dashed), builds the
stroke path (from `strokePaths` for dotted, from `boxPaths.slice(0, 2)` for
dashed), draws it, then deletes paint, stroke path and path effect and does
`canvas.restore()`. -/
def renderDashedDottedBorder (width : ℚ) (side : ℕ) (boxPaths : List Seg)
    (style : BorderStyleDD) : List BorderEv :=
  let length := borderSideLength side boxPaths
  let ds := dashSpace style width length
  match style with
  | .dashed =>
    [BorderEv.save, .createRes 0 .paint,
     .createRes 1 .path, .clipPath 1, .deleteRes 1,
     .setStrokeWidth (width * 2 + 11 / 10), .makeDash 2 ds.1 ds.2,
     .createRes 3 .path, .drawPath 3,
     .deleteRes 0, .deleteRes 3, .deleteRes 2, .restore]
  | .dotted =>
    [BorderEv.save, .createRes 0 .paint,
     .setStrokeWidth width, .makeDash 1 0 (ds.1 + ds.2),
     .createRes 2 .path, .drawPath 2,
     .deleteRes 0, .deleteRes 2, .deleteRes 1, .restore]

/-- Ids of resources created by a border trace. -/
def createdIds (tr : List BorderEv) : List ℕ :=
  tr.filterMap (fun ev => match ev with
    | .createRes i _ => some i
    | .makeDash i _ _ => some i
    | _ => none)

/-- Ids of resources deleted by a border trace. -/
def deletedIds (tr : List BorderEv) : List ℕ :=
  tr.filterMap (fun ev => match ev with
    | .deleteRes i => some i
    | _ => none)

/-! ### Radial gradient layer (source: radial branch of `renderBackgroundImage`)

`calculateBackgroundRendering` and `calculateRadius` are external; the layer
geometry (`left`, `top`, `width`, `height`), position (`x`, `y`), radii
(`rx`, `ry`) and the container bounds are inputs.  `shaderOk` models whether
`Shader.MakeRadialGradient` is available and returns a shader.  The layer
path is resource-free here (path/paint create/delete calls are elided; the
claim is about the draw and transform calls). -/

inductive CanvasEv where
  | save
  | restore
  | translate (dx dy : ℚ)
  | concatM (m0 m1 m2 m3 m4 m5 m6 m7 m8 : ℚ)
  | makeRadialShader (cx cy radius : ℚ)
  | drawPathEv (id : ℕ)
  | drawRect (l t r b : ℚ)
deriving DecidableEq

def renderRadialGradientLayer (shaderOk : Bool)
    (left top width height x y rx ry bLeft bTop bWidth bHeight : ℚ) :
    List CanvasEv :=
  if rx > 0 ∧ ry > 0 then
    if shaderOk then
      let shader := CanvasEv.makeRadialShader (left + x) (top + y) rx
      if rx ≠ ry then
        let midX := bLeft + 1 / 2 * bWidth
        let midY := bTop + 1 / 2 * bHeight
        let f := ry / rx
        let invF := 1 / f
        [shader, .save, .translate midX midY,
         .concatM 1 0 0 0 f 0 0 0 1, .translate (-midX) (-midY),
         .drawRect left (invF * (top - midY) + midY) (left + width)
           (invF * (top - midY) + midY + height * invF),
         .restore]
      else
        [shader, .drawPathEv 0]
    else []
  else []

def CanvasEv.isSave : CanvasEv → Bool
  | .save => true
  | _ => false

def CanvasEv.isRestore : CanvasEv → Bool
  | .restore => true
  | _ => false

/-! ### Stacking-context walker (source: `renderStack`, `renderStackContent`,
`renderNode`)

The stacking-context tree is the walker's input, built externally by
`parseStackingContexts`.  A context holds its element paint plus seven
child buckets; four buckets hold child contexts, two hold plain element
paints.  Element paints are reduced to the data the walker's control flow
reads: the visibility flag and an identifying tag; the painting work done
for one node (`renderNodeBackgroundAndBorders` / `renderNodeContent`) is
recorded as one `bgb` / `content` event. -/

structure EP where
  visible : Bool
  id : ℕ
deriving DecidableEq

mutual
inductive SC : Type where
  | mk : EP → SCL → List EP → SCL → SCL → List EP → SCL → SCL → SC
inductive SCL : Type where
  | nil : SCL
  | cons : SC → SCL → SCL
end

def SC.element : SC → EP
  | .mk e _ _ _ _ _ _ _ => e

inductive PaintEv where
  | bgb (id : ℕ)
  | content (id : ℕ)
deriving DecidableEq

/-- Model of `renderNode`: if the paint's container is visible, paint background and
borders, then content. -/
def renderNode (p : EP) : List PaintEv :=
  if p.visible then [.bgb p.id, .content p.id] else []

def renderNodes (l : List EP) : List PaintEv :=
  (l.map renderNode).flatten

mutual
/-- Model of `renderStack` / `renderStackContent` fused (the source splits the
visibility gate into `renderStack` and the eight steps into
`renderStackContent`; `renderStackContent` below recovers the split). -/
def renderStackGo : SC → List PaintEv
  | .mk e neg nonInline floats inlC inlN zeroAuto pos =>
    if e.visible then
      [PaintEv.bgb e.id] ++ renderSCL neg ++ [PaintEv.content e.id] ++
        renderNodes nonInline ++ renderSCL floats ++ renderSCL inlC ++
        renderNodes inlN ++ renderSCL zeroAuto ++ renderSCL pos
    else []
def renderSCL : SCL → List PaintEv
  | .nil => []
  | .cons c cs => renderStackGo c ++ renderSCL cs
end

/-- The body of `renderStackContent`: the eight painting-order steps. -/
def renderStackContent : SC → List PaintEv
  | .mk e neg nonInline floats inlC inlN zeroAuto pos =>
    [PaintEv.bgb e.id] ++ renderSCL neg ++ [PaintEv.content e.id] ++
      renderNodes nonInline ++ renderSCL floats ++ renderSCL inlC ++
      renderNodes inlN ++ renderSCL zeroAuto ++ renderSCL pos

/-- Model of `renderStack`: render the context's content when its root element is
visible, otherwise do nothing. -/
def renderStack (s : SC) : List PaintEv := renderStackGo s

/-! The reference ordering, written out from the specification text of
§4.7: eight buckets visited in a fixed order, nothing when the root element
is invisible.  Steps 2, 5, 6, 7, 8 recurse into child contexts; steps 4 and
6b visit descendant nodes; the negative-z bucket is visited in its stored
(builder-sorted ascending, i.e. most negative first) order. -/

mutual
def paintOrderSpecGo : SC → List PaintEv
  | .mk e neg nonInline floats inlC inlN zeroAuto pos =>
    if e.visible = false then []
    else
      List.flatten
        [[PaintEv.bgb e.id],
         paintOrderSpecList neg,
         [PaintEv.content e.id],
         renderNodes nonInline,
         paintOrderSpecList floats,
         paintOrderSpecList inlC ++ renderNodes inlN,
         paintOrderSpecList zeroAuto,
         paintOrderSpecList pos]
def paintOrderSpecList : SCL → List PaintEv
  | .nil => []
  | .cons c cs => paintOrderSpecGo c ++ paintOrderSpecList cs
end

/-! ### Text node rendering (source: `renderTextNode`)

Text is a char list (JS strings are char sequences).  `Math.round` on an
idealised JS number is `⌊x + 1/2⌋`, `Math.ceil` is `⌈x⌉`.  Paint and blur
mask-filter creation/deletion are elided; the recorded events are the
canvas calls and each glyph-run draw (one `renderTextWithLetterSpacing`
call), tagged with which pass issued it. -/

def isJSWhitespace (c : Char) : Bool :=
  c = ' ' ∨ c = '\t' ∨ c = '\n' ∨ c = '\r' ∨ c = '\x0c' ∨ c = '\x0b'

/-- JS `s.trim().length > 0`: the text has a non-whitespace char. -/
def hasNonWS (text : List Char) : Bool :=
  text.any (fun c => ¬ isJSWhitespace c)

def jsRound (q : ℚ) : ℤ := ⌊q + 1 / 2⌋

structure TextShadowSpec where
  offsetX : ℚ
  offsetY : ℚ
  blur : ℚ
  color : ℕ
deriving DecidableEq

structure TextRunBounds where
  text : List Char
  left : ℚ
  top : ℚ
  width : ℚ
  height : ℚ
deriving DecidableEq

inductive PaintLayer where
  | fill
  | stroke
deriving DecidableEq

/-- Decoration lines: 1 = underline, 2 = overline, 3 = line-through. -/
inductive TextNodeEv where
  | drawRunFill (runIdx : ℕ)
  | saveEv
  | translateEv (dx dy : ℚ)
  | drawRunShadow (runIdx sIdx : ℕ)
  | restoreEv
  | drawDecoRect (runIdx : ℕ) (l t r b : ℚ)
  | drawRunStroke (runIdx : ℕ)
deriving DecidableEq

/-- The decoration rectangle for one decoration line of one run. -/
def decorationRect (baseline middle : ℚ) (tb : TextRunBounds) (line : ℕ) :
    ℚ × ℚ × ℚ × ℚ :=
  if line = 1 then
    (tb.left, (jsRound (tb.top + baseline) : ℚ), tb.left + tb.width,
      (jsRound (tb.top + baseline) : ℚ) + 1)
  else if line = 2 then
    (tb.left, (jsRound tb.top : ℚ), tb.left + tb.width, (jsRound tb.top : ℚ) + 1)
  else if line = 3 then
    (tb.left, (⌈tb.top + middle⌉ : ℚ), tb.left + tb.width, (⌈tb.top + middle⌉ : ℚ) + 1)
  else (0, 0, 0, 0)

/-- The fill pass for one run: main fill draw, then — when there are text
shadows and the run text is non-blank — one save/translate/draw/restore
group per shadow, iterating the declared shadows in reverse, then the
decoration rectangles. -/
def fillPassEvents (scale baseline middle : ℚ) (textShadows : List TextShadowSpec)
    (decorationLines : List ℕ) (runIdx : ℕ) (tb : TextRunBounds) : List TextNodeEv :=
  [TextNodeEv.drawRunFill runIdx] ++
    (if textShadows.length ≠ 0 ∧ hasNonWS tb.text then
      ((textShadows.enum.reverse).map (fun p =>
        [TextNodeEv.saveEv,
         .translateEv (p.2.offsetX * scale) (p.2.offsetY * scale),
         .drawRunShadow runIdx p.1, .restoreEv])).flatten
    else []) ++
    (if decorationLines.length ≠ 0 then
      (decorationLines.map (fun line =>
        let r := decorationRect baseline middle tb line
        if r.2.2.1 > r.1 ∧ r.2.2.2 > r.2.1 then
          [TextNodeEv.drawDecoRect runIdx r.1 r.2.1 r.2.2.1 r.2.2.2]
        else [])).flatten
    else [])

/-- The stroke pass for one run: a stroke draw when the webkit text stroke
width is non-zero and the run text is non-blank. -/
def strokePassEvents (strokeWidth : ℚ) (runIdx : ℕ) (tb : TextRunBounds) :
    List TextNodeEv :=
  if strokeWidth ≠ 0 ∧ hasNonWS tb.text then [TextNodeEv.drawRunStroke runIdx] else []

/-- Model of `renderTextNode`: for each text-bounds run (skipping runs with
non-positive width or height), execute the style's paint-order passes. -/
def renderTextNode (paintOrder : List PaintLayer) (textShadows : List TextShadowSpec)
    (decorationLines : List ℕ) (strokeWidth scale baseline middle : ℚ)
    (runs : List TextRunBounds) : List TextNodeEv :=
  (runs.enum.map (fun rp =>
    if rp.2.width ≤ 0 ∨ rp.2.height ≤ 0 then []
    else
      (paintOrder.map (fun layer =>
        match layer with
        | .fill => fillPassEvents scale baseline middle textShadows decorationLines rp.1 rp.2
        | .stroke => strokePassEvents strokeWidth rp.1 rp.2)).flatten)).flatten

/-! ### Text run rendering with letter spacing and font fallback
(source: `renderTextWithLetterSpacing`, `areGlyphsMissing`)

A font is its backend behaviour: glyph-id lookup, glyph-width measurement
and size.  The fallback provider and `segmentGraphemes` are external
collaborators, modelled as function-valued inputs.  A temporary fallback
font fabricated from a typeface is identified in the trace by the typeface
and the size it was built with. -/

structure SkFont where
  glyphs : List Char → List ℕ
  glyphWidths : List ℕ → List ℚ
  size : ℚ

structure TextRunEnv where
  font : SkFont
  fallbackTypeface : List Char → Option ℕ
  fallbackFont : ℕ → ℚ → SkFont
  segment : List Char → List (List Char)

inductive TextRunEv where
  | drawWhole (text : List Char) (x : ℚ)
  | drawPrimary (letter : List Char) (x : ℚ)
  | drawFallback (letter : List Char) (x : ℚ) (typeface : ℕ) (size : ℚ)
  | deleteFallbackFont (typeface : ℕ) (size : ℚ)
deriving DecidableEq

def areGlyphsMissing (f : SkFont) (text : List Char) : Bool :=
  (f.glyphs text).length = 0 ∨ (f.glyphs text).any (fun id => id = 0)

/-- The body of the per-grapheme `reduce`: look up the grapheme's glyph ids
in the primary font; when none resolve (empty list or a zero id) and the
fallback provider returns a typeface, build a temporary font of the same
size, draw with it, and delete it right after measuring; advance the
running x by the measured first glyph width (of whichever font drew) plus
the letter spacing. -/
def stepLetter (env : TextRunEnv) (letterSpacing : ℚ)
    (acc : List TextRunEv × ℚ) (letter : List Char) : List TextRunEv × ℚ :=
  let glyphIDs := env.font.glyphs letter
  let fallbackTf : Option ℕ :=
    if glyphIDs.length = 0 ∨ glyphIDs.any (fun id => id = 0) then
      env.fallbackTypeface letter
    else none
  match fallbackTf with
  | some tf =>
    let ff := env.fallbackFont tf env.font.size
    let widths := ff.glyphWidths glyphIDs
    (acc.1 ++ [.drawFallback letter acc.2 tf env.font.size,
               .deleteFallbackFont tf env.font.size],
     acc.2 + widths.headD 0 + letterSpacing)
  | none =>
    let widths := env.font.glyphWidths glyphIDs
    (acc.1 ++ [.drawPrimary letter acc.2], acc.2 + widths.headD 0 + letterSpacing)

def renderLetters (env : TextRunEnv) (letterSpacing : ℚ)
    (acc : List TextRunEv × ℚ) (letters : List (List Char)) : List TextRunEv × ℚ :=
  letters.foldl (stepLetter env letterSpacing) acc

/-- Model of `renderTextWithLetterSpacing`: fast path draws the whole run in one call
when the letter spacing is zero and no glyph is missing; the slow path
segments into graphemes and reduces with `stepLetter`. -/
def renderTextWithLetterSpacing (env : TextRunEnv) (letterSpacing left : ℚ)
    (text : List Char) : List TextRunEv :=
  if letterSpacing = 0 ∧ ¬ areGlyphsMissing env.font text then
    [.drawWhole text left]
  else
    (renderLetters env letterSpacing ([], left) (env.segment text)).1

/-! ### Manual colour parsing (source: `parseColor`, `parseColorWithAlpha`)

`parseColor` first tries the backend's `parseColorString`; when that is
unavailable or throws, it falls back to manual parsing of the colour
string.  JS `NaN` is modelled as `none`; a colour channel is `Option ℚ`.
`parseInt(s, 16)` and `parseFloat(s)` are modelled with their leading-prefix
semantics (whitespace skip, optional sign, maximal valid prefix, `NaN` when
no digit is consumed); the regex `/rgba?\(([^)]+)\)/` is modelled as a
left-to-right scan for the first full match. -/

def hexDigitVal (c : Char) : Option ℕ :=
  if c.isDigit then some (c.toNat - 48)
  else if 'a' ≤ c ∧ c ≤ 'f' then some (c.toNat - 87)
  else if 'A' ≤ c ∧ c ≤ 'F' then some (c.toNat - 55)
  else none

/-- Lower-case hex digit for `n < 16` (specification-side encoder, used to
quantify over well-formed hex colour strings). -/
def toHexDigit (n : ℕ) : Char :=
  if n < 10 then Char.ofNat (48 + n) else Char.ofNat (87 + n)

/-- The two-digit lower-case hex encoding of a byte. -/
def toHex2 (n : ℕ) : List Char := [toHexDigit (n / 16), toHexDigit (n % 16)]

/-- Optional leading sign of a JS numeric parse: `(negative?, rest)`. -/
def jsSign : List Char → Bool × List Char
  | '-' :: rest => (true, rest)
  | '+' :: rest => (false, rest)
  | cs => (false, cs)

/-- Optional `0x` / `0X` prefix accepted by `parseInt(s, 16)`. -/
def stripHexPrefix : List Char → List Char
  | '0' :: 'x' :: rest => rest
  | '0' :: 'X' :: rest => rest
  | cs => cs

/-- JS `parseInt(s, 16)`: skip whitespace, optional sign, optional `0x`
prefix, then the maximal run of hex digits; `NaN` (`none`) when that run is
empty. -/
def parseIntHex (cs : List Char) : Option ℤ :=
  let sgn := jsSign (cs.dropWhile isJSWhitespace)
  let ds := (stripHexPrefix sgn.2).takeWhile (fun c => (hexDigitVal c).isSome)
  if ds.length = 0 then none
  else
    let v : ℕ := ds.foldl (fun acc c => 16 * acc + (hexDigitVal c).getD 0) 0
    some (if sgn.1 then -(v : ℤ) else (v : ℤ))

def decDigitsVal (ds : List Char) : ℕ :=
  ds.foldl (fun acc c => 10 * acc + (c.toNat - 48)) 0

/-- The optional `.digits` fraction part: `(fraction digits, rest)`. -/
def jsFracPart : List Char → List Char × List Char
  | '.' :: rest => (rest.takeWhile Char.isDigit, rest.drop (rest.takeWhile Char.isDigit).length)
  | cs => ([], cs)

/-- The optional exponent digits after `e`/`E`; an exponent with no digits
contributes `0` (it is ignored, as `parseFloat` backtracks over it). -/
def parseExpDigits (rest : List Char) : ℤ :=
  let esgn := jsSign rest
  let eDs := esgn.2.takeWhile Char.isDigit
  if eDs.length = 0 then 0
  else if esgn.1 then -(decDigitsVal eDs : ℤ) else (decDigitsVal eDs : ℤ)

/-- The optional exponent part of a JS float literal. -/
def jsExpPart : List Char → ℤ
  | 'e' :: rest => parseExpDigits rest
  | 'E' :: rest => parseExpDigits rest
  | _ => 0

/-- JS `parseFloat(s)`: skip whitespace, optional sign, decimal digits with
optional fraction, optional exponent; `NaN` (`none`) when no mantissa digit
is consumed. -/
def parseFloatJS (cs : List Char) : Option ℚ :=
  let sgn := jsSign (cs.dropWhile isJSWhitespace)
  let intDs := sgn.2.takeWhile Char.isDigit
  let frac := jsFracPart (sgn.2.drop intDs.length)
  if intDs.length = 0 ∧ frac.1.length = 0 then none
  else
    let mant : ℚ := (decDigitsVal intDs : ℚ) + (decDigitsVal frac.1 : ℚ) / 10 ^ frac.1.length
    some ((if sgn.1 then -mant else mant) * (10 : ℚ) ^ jsExpPart frac.2)

/-- JS `String.prototype.trim`. -/
def trimJS (cs : List Char) : List Char :=
  ((cs.dropWhile isJSWhitespace).reverse.dropWhile isJSWhitespace).reverse

/-- JS `String.prototype.split(",")`: empty pieces are kept. -/
def splitComma : List Char → List (List Char)
  | [] => [[]]
  | c :: rest =>
    let r := splitComma rest
    if c = ',' then [] :: r
    else
      match r with
      | h :: t => (c :: h) :: t
      | [] => [[c]]

/-- The capture `([^)]+)\)`: at least one non-`)` char followed by `)`. -/
def captureParen (cs : List Char) : Option (List Char) :=
  let inner := cs.takeWhile (fun c => c ≠ ')')
  if inner.length = 0 then none
  else if (cs.drop inner.length).take 1 = [')'] then some inner
  else none

/-- First full match of `/rgba?\(([^)]+)\)/`, scanning left to right. -/
def findRgbMatch : List Char → Option (List Char)
  | [] => none
  | c :: rest =>
    let here :=
      if (c :: rest).take 5 = ['r', 'g', 'b', 'a', '('] then
        captureParen ((c :: rest).drop 5)
      else if (c :: rest).take 4 = ['r', 'g', 'b', '('] then
        captureParen ((c :: rest).drop 4)
      else none
    match here with
    | some inner => some inner
    | none => findRgbMatch rest

/-- An RGBA colour with possibly-`NaN` channels (`Color4f` semantics). -/
structure RGBA where
  r : Option ℚ
  g : Option ℚ
  b : Option ℚ
  a : Option ℚ
deriving DecidableEq

def opaqueBlack : RGBA := ⟨some 0, some 0, some 0, some 1⟩

def chanDiv255 (v : Option ℤ) : Option ℚ :=
  v.map (fun n => (n : ℚ) / 255)

/-- The `#`-branch: hex digit pairs at offsets 0/2/4, alpha pair at 6 when
more than six chars follow the `#`. -/
def parseHexColor (hex : List Char) : RGBA :=
  ⟨chanDiv255 (parseIntHex (hex.take 2)),
   chanDiv255 (parseIntHex ((hex.drop 2).take 2)),
   chanDiv255 (parseIntHex ((hex.drop 4).take 2)),
   if 6 < hex.length then chanDiv255 (parseIntHex ((hex.drop 6).take 2)) else some 1⟩

/-- The manual fallback branch of `parseColor`. -/
def parseColorFallback (cs : List Char) : RGBA :=
  if cs.take 1 = ['#'] then parseHexColor (cs.drop 1)
  else
    match findRgbMatch cs with
    | some inner =>
      let values := (splitComma inner).map (fun v => parseFloatJS (trimJS v))
      if 3 ≤ values.length then
        ⟨(values.getD 0 none).map (fun q => q / 255),
         (values.getD 1 none).map (fun q => q / 255),
         (values.getD 2 none).map (fun q => q / 255),
         if 3 < values.length then values.getD 3 none else some 1⟩
      else opaqueBlack
    | none => opaqueBlack

/-- Model of `parseColor`: backend parser first (`none` models "unavailable or
threw"), manual fallback otherwise. -/
def parseColor (backend : List Char → Option RGBA) (cs : List Char) : RGBA :=
  match backend cs with
  | some c => c
  | none => parseColorFallback cs

/-- Model of `multiplyByAlpha`: scales only the alpha channel. -/
def multiplyByAlpha (c : RGBA) (alpha : ℚ) : RGBA :=
  ⟨c.r, c.g, c.b, c.a.map (fun a => a * alpha)⟩

/-- Model of `parseColorWithAlpha`: resolve the colour, then scale by the current
top of the global-alpha stack. -/
def parseColorWithAlpha (backend : List Char → Option RGBA) (g : GlobalAlpha)
    (cs : List Char) : RGBA :=
  multiplyByAlpha (parseColor backend cs) g.value

/-! ## Theorems -/

/-! ### Global-alpha stack (C9) -/

theorem alphaStep_stack_ne_nil (g : GlobalAlpha) (op : AlphaOp)
    (h : g.stack ≠ []) : (alphaStep g op).stack ≠ [] := by
  cases op with
  | push v => simp [alphaStep, GlobalAlpha.push]
  | pop =>
    simp only [alphaStep, GlobalAlpha.pop]
    split
    · rename_i hlen
      simp only [ne_eq, ← List.length_eq_zero, List.length_dropLast]
      omega
    · exact h

theorem runAlphaOps_stack_ne_nil (ops : List AlphaOp) :
    (runAlphaOps ops).stack ≠ [] := by
  suffices h : ∀ g : GlobalAlpha, g.stack ≠ [] → (ops.foldl alphaStep g).stack ≠ [] by
    exact h GlobalAlpha.init (by simp [GlobalAlpha.init])
  induction ops with
  | nil => intro g hg; exact hg
  | cons op rest ih =>
    intro g hg
    exact ih (alphaStep g op) (alphaStep_stack_ne_nil g op hg)

/-- C9: the global-alpha stack starts as the single entry `1`, survives any
sequence of pushes and pops (it is never empty), and the effective alpha
read by paint-colour resolution is always one of its entries; popping the
single-entry base stack returns `1` without removing the entry, while
popping a longer stack removes and returns the top entry. -/
theorem globalAlpha_stack_invariant :
    GlobalAlpha.init.stack = [1] ∧
    (∀ ops : List AlphaOp, (runAlphaOps ops).stack ≠ [] ∧
      (runAlphaOps ops).value ∈ (runAlphaOps ops).stack) ∧
    GlobalAlpha.init.pop = (GlobalAlpha.init, 1) ∧
    (∀ (x v : ℚ) (st : List ℚ),
      (GlobalAlpha.mk (x :: st ++ [v])).pop = (⟨x :: st⟩, v)) := by
  refine ⟨rfl, fun ops => ⟨runAlphaOps_stack_ne_nil ops, ?_⟩, by decide, ?_⟩
  · have h := runAlphaOps_stack_ne_nil ops
    simp only [GlobalAlpha.value]
    rw [List.getLast?_eq_getLast _ h]
    exact List.getLast_mem h
  · intro x v st
    rw [GlobalAlpha.pop]
    rw [if_pos (by simp)]
    refine Prod.ext ?_ ?_
    · show GlobalAlpha.mk ((x :: st) ++ [v]).dropLast = ⟨x :: st⟩
      rw [List.dropLast_concat]
    · show ((x :: st) ++ [v]).getLast?.getD 1 = v
      rw [List.getLast?_concat]
      rfl

/-! ### Effect stack (C2) -/

theorem popEffect_concat (l : List SkEffect) (e : SkEffect) (g : GlobalAlpha)
    (d : ℕ) :
    popEffect ⟨l ++ [e], g, d⟩ =
      ⟨l, match e with | .opacity _ => (g.pop).1 | _ => g, d - 1⟩ := by
  cases e <;>
    simp only [popEffect, List.getLast?_concat, List.dropLast_concat]

theorem opacities_append (l₁ l₂ : List SkEffect) :
    opacities (l₁ ++ l₂) = opacities l₁ ++ opacities l₂ :=
  List.filterMap_append l₁ l₂ _

theorem popEffect_inv (s : EffectState) (hne : s.activeEffects ≠ [])
    (h : EffectInv s) : EffectInv (popEffect s) := by
  obtain ⟨act, g, d⟩ := s
  obtain ⟨ha, hd⟩ := h
  simp only at ha hd hne
  rcases List.eq_nil_or_concat act with h0 | ⟨l, e, h0⟩
  · exact absurd h0 hne
  subst h0
  simp only [List.concat_eq_append] at ha hd ⊢
  rw [popEffect_concat]
  cases e with
  | opacity v =>
    have hstack : g.stack = (1 :: opacities l) ++ [v] := by
      simpa [opacities_append, opacities] using ha
    have hpop : (g.pop).1.stack = 1 :: opacities l := by
      simp only [GlobalAlpha.pop]
      rw [if_pos (by rw [hstack]; simp)]
      show g.stack.dropLast = 1 :: opacities l
      rw [hstack, List.dropLast_concat]
    exact ⟨hpop, by simp [hd]⟩
  | transform ox oy m0 m1 m2 m3 m4 m5 =>
    refine ⟨?_, by simp [hd]⟩
    simpa [opacities_append, opacities] using ha
  | clip p =>
    refine ⟨?_, by simp [hd]⟩
    simpa [opacities_append, opacities] using ha

theorem applyEffect_inv (s : EffectState) (e : SkEffect)
    (h : EffectInv s) : EffectInv (applyEffect s e) := by
  obtain ⟨ha, hd⟩ := h
  cases e with
  | opacity v =>
    exact ⟨by simp [applyEffect, GlobalAlpha.push, ha, opacities_append, opacities],
      by simp [applyEffect, hd]⟩
  | transform ox oy m0 m1 m2 m3 m4 m5 =>
    exact ⟨by simp [applyEffect, ha, opacities_append, opacities],
      by simp [applyEffect, hd]⟩
  | clip p =>
    exact ⟨by simp [applyEffect, ha, opacities_append, opacities],
      by simp [applyEffect, hd]⟩

theorem popAllEffects_inv (s : EffectState) (h : EffectInv s) :
    popAllEffects s = EffectState.init := by
  rw [popAllEffects]
  split
  · rename_i hlen
    obtain ⟨act, g, d⟩ := s
    obtain ⟨ha, hd⟩ := h
    simp only at ha hd hlen
    have : act = [] := List.length_eq_zero.mp hlen
    subst this
    simp only [opacities, List.filterMap_nil] at ha
    subst hd
    simp only [EffectState.init, GlobalAlpha.init]
    exact congrArg (fun st => EffectState.mk [] ⟨st⟩ 0) ha
  · rename_i hlen
    have hne : s.activeEffects ≠ [] := by
      intro h0
      exact hlen (by simp [h0])
    exact popAllEffects_inv (popEffect s) (popEffect_inv s hne h)
termination_by s.activeEffects.length
decreasing_by
  simp only [popEffect, List.length_dropLast]
  omega

theorem foldl_applyEffect_active (req : List SkEffect) :
    ∀ s : EffectState, (req.foldl applyEffect s).activeEffects =
      s.activeEffects ++ req := by
  induction req with
  | nil => intro s; simp
  | cons e rest ih =>
    intro s
    rw [List.foldl_cons, ih (applyEffect s e)]
    simp [applyEffect]

theorem foldl_applyEffect_inv (req : List SkEffect) :
    ∀ s : EffectState, EffectInv s → EffectInv (req.foldl applyEffect s) := by
  induction req with
  | nil => intro s h; exact h
  | cons e rest ih =>
    intro s h
    exact ih (applyEffect s e) (applyEffect_inv s e h)

theorem popAllEffects_active (s : EffectState) :
    (popAllEffects s).activeEffects = [] := by
  rw [popAllEffects]
  split
  · rename_i hlen
    exact List.length_eq_zero.mp hlen
  · exact popAllEffects_active (popEffect s)
termination_by s.activeEffects.length
decreasing_by
  simp only [popEffect, List.length_dropLast]
  omega

theorem popAllEffects_depth (s : EffectState) :
    (popAllEffects s).canvasDepth = s.canvasDepth - s.activeEffects.length := by
  rw [popAllEffects]
  split
  · rename_i hlen
    simp [hlen]
  · rename_i hlen
    rw [popAllEffects_depth (popEffect s)]
    simp only [popEffect, List.length_dropLast]
    omega
termination_by s.activeEffects.length
decreasing_by
  simp only [popEffect, List.length_dropLast]
  omega

theorem applyEffects_inv (s : EffectState) (req : List SkEffect)
    (h : EffectInv s) : EffectInv (applyEffects s req) := by
  have h0 : EffectInv EffectState.init :=
    ⟨by simp [EffectState.init, GlobalAlpha.init, opacities], by simp [EffectState.init]⟩
  rw [applyEffects, popAllEffects_inv s h]
  exact foldl_applyEffect_inv req EffectState.init h0

/-- C2: `applyEffects(requested)` unwinds every active effect and then
applies `requested` in order, so the active-effect stack afterwards is
exactly `requested` (in particular its length is `requested.length`); the
unwinding restores the canvas once per active effect; and after any
sequence of `applyEffects` calls starting from the initial renderer state
(which is how the renderer's only mutations of this state happen, with the
full render ending in `applyEffects([])`), a final `applyEffects([])`
returns the state — the effect stack, the canvas depth and the
global-alpha stack with its single base entry `1` — to its initial value. -/
theorem applyEffects_stack_discipline :
    (∀ (s : EffectState) (req : List SkEffect),
      (applyEffects s req).activeEffects = req) ∧
    (∀ s : EffectState,
      (popAllEffects s).canvasDepth = s.canvasDepth - s.activeEffects.length) ∧
    (∀ reqs : List (List SkEffect),
      applyEffects (reqs.foldl applyEffects EffectState.init) [] = EffectState.init) ∧
    EffectState.init.globalAlpha.stack = [1] ∧ EffectState.init.globalAlpha.value = 1 := by
  refine ⟨?_, popAllEffects_depth, ?_, rfl, rfl⟩
  · intro s req
    rw [applyEffects, foldl_applyEffect_active req (popAllEffects s),
      popAllEffects_active s]
    simp
  · intro reqs
    have h0 : EffectInv EffectState.init :=
      ⟨by simp [EffectState.init, GlobalAlpha.init, opacities], by simp [EffectState.init]⟩
    have hinv : EffectInv (reqs.foldl applyEffects EffectState.init) := by
      induction reqs using List.reverseRecOn with
      | nil => exact h0
      | append_singleton rest req ih =>
        rw [List.foldl_append]
        exact applyEffects_inv _ req ih
    rw [applyEffects, popAllEffects_inv _ hinv]
    rfl

/-! ### Dashed/dotted borders (C4, C5, C10) -/

/-- C10: every `renderDashedDottedBorder` call — dashed or dotted, with or
without the dashed clip branch — performs exactly one canvas save, as its
first action, and exactly one matching restore, as its last, and deletes
exactly the resources (paint, paths, path effect) it created. -/
theorem renderDashedDottedBorder_resources (width : ℚ) (side : ℕ)
    (boxPaths : List Seg) (style : BorderStyleDD) :
    (renderDashedDottedBorder width side boxPaths style).countP BorderEv.isSave = 1 ∧
    (renderDashedDottedBorder width side boxPaths style).countP BorderEv.isRestore = 1 ∧
    (renderDashedDottedBorder width side boxPaths style).take 1 = [BorderEv.save] ∧
    (renderDashedDottedBorder width side boxPaths style).getLast? =
      some BorderEv.restore ∧
    (↑(createdIds (renderDashedDottedBorder width side boxPaths style)) : Multiset ℕ) =
      ↑(deletedIds (renderDashedDottedBorder width side boxPaths style)) := by
  cases style <;>
    refine ⟨?_, ?_, ?_, ?_, ?_⟩ <;>
      simp [renderDashedDottedBorder, createdIds, deletedIds,
        BorderEv.isSave, BorderEv.isRestore, List.countP_cons] <;>
      decide

theorem numberOfDashes_6_4_100 : numberOfDashes 6 4 100 = 10 := by
  rw [numberOfDashes, Int.floor_eq_iff]
  norm_num

theorem numberOfDashes_1_1_10 : numberOfDashes 1 1 10 = 5 := by
  rw [numberOfDashes, Int.floor_eq_iff]
  norm_num

theorem numberOfDashes_tie : numberOfDashes 6 3 (138 / 5) = 3 := by
  rw [numberOfDashes, Int.floor_eq_iff]
  norm_num

theorem minSpace_6_4_100 : minSpace 6 4 100 = 40 / 9 := by
  rw [minSpace, numberOfDashes_6_4_100]
  norm_num

theorem maxSpace_6_4_100 : maxSpace 6 4 100 = 17 / 5 := by
  rw [maxSpace, numberOfDashes_6_4_100]
  norm_num

theorem minSpace_1_1_10 : minSpace 1 1 10 = 5 / 4 := by
  rw [minSpace, numberOfDashes_1_1_10]
  norm_num

theorem maxSpace_1_1_10 : maxSpace 1 1 10 = 4 / 5 := by
  rw [maxSpace, numberOfDashes_1_1_10]
  norm_num

theorem minSpace_tie : minSpace 6 3 (138 / 5) = 24 / 5 := by
  rw [minSpace, numberOfDashes_tie]
  norm_num

theorem maxSpace_tie : maxSpace 6 3 (138 / 5) = 6 / 5 := by
  rw [maxSpace, numberOfDashes_tie]
  norm_num

theorem dashSpace_dashed_2_100 : dashSpace .dashed 2 100 = (6, 40 / 9) := by
  have hd : baseDashLength .dashed 2 = 6 := by norm_num [baseDashLength]
  have hs : baseSpaceLength .dashed 2 = 4 := by norm_num [baseSpaceLength]
  rw [dashSpace, hd, hs, balanceDashSpace]
  rw [if_neg (by norm_num), if_neg (by norm_num)]
  have h1 : |(4 : ℚ) - 40 / 9| = 4 / 9 := by
    rw [abs_of_nonpos (by norm_num)]
    norm_num
  have h2 : |(4 : ℚ) - 17 / 5| = 3 / 5 := by
    rw [abs_of_nonneg (by norm_num)]
    norm_num
  rw [if_pos (Or.inr (by rw [minSpace_6_4_100, maxSpace_6_4_100, h1, h2]; norm_num))]
  rw [minSpace_6_4_100]

theorem dashSpace_dotted_1_10 : dashSpace .dotted 1 10 = (1, 4 / 5) := by
  have hd : baseDashLength .dotted 1 = 1 := rfl
  have hs : baseSpaceLength .dotted 1 = 1 := rfl
  rw [dashSpace, hd, hs, balanceDashSpace]
  rw [if_neg (by norm_num), if_neg (by norm_num)]
  have h1 : |(1 : ℚ) - 5 / 4| = 1 / 4 := by
    rw [abs_of_nonpos (by norm_num)]
    norm_num
  have h2 : |(1 : ℚ) - 4 / 5| = 1 / 5 := by
    rw [abs_of_nonneg (by norm_num)]
    norm_num
  rw [if_neg ?_, maxSpace_1_1_10]
  rw [minSpace_1_1_10, maxSpace_1_1_10, h1, h2]
  norm_num

theorem dashSpace_dashed_tie : dashSpace .dashed 3 (138 / 5) = (6, 6 / 5) := by
  have hd : baseDashLength .dashed 3 = 6 := by norm_num [baseDashLength]
  have hs : baseSpaceLength .dashed 3 = 3 := by norm_num [baseSpaceLength]
  rw [dashSpace, hd, hs, balanceDashSpace]
  rw [if_neg (by norm_num), if_neg (by norm_num)]
  have h1 : |(3 : ℚ) - 24 / 5| = 9 / 5 := by
    rw [abs_of_nonpos (by norm_num)]
    norm_num
  have h2 : |(3 : ℚ) - 6 / 5| = 9 / 5 := by
    rw [abs_of_nonneg (by norm_num)]
    norm_num
  rw [if_neg ?_, maxSpace_tie]
  rw [minSpace_tie, maxSpace_tie, h1, h2]
  norm_num

/-- C4 fails on the code: for a 2px dashed border the base dash length is
`width * 3 = 6` (the source uses `width * 3` / `width * 2` below 3px), not
`width * 2 = 4`, and the end-to-end 2px/length-100 scenario yields
`(dash, space) = (6, 40/9)`, not `≈ (4, 2)`. -/
theorem baseDash_two_px_counterexample :
    baseDashLength .dashed 2 = 6 ∧ baseDashLength .dashed 2 ≠ 2 * 2 ∧
    baseSpaceLength .dashed 2 = 4 ∧ baseSpaceLength .dashed 2 ≠ 2 ∧
    dashSpace .dashed 2 100 = (6, 40 / 9) ∧
    (dashSpace .dashed 2 100).1 ≠ 4 := by
  refine ⟨by norm_num [baseDashLength], by norm_num [baseDashLength],
    by norm_num [baseSpaceLength], by norm_num [baseSpaceLength],
    dashSpace_dashed_2_100, by rw [dashSpace_dashed_2_100]; norm_num⟩

/-- C4 amended: the base dash/space lengths before balancing are
`width * 3` / `width * 2` for dashed widths below 3 and `width * 2` /
`width` otherwise, and `width` / `width` for dotted; consequently a 2px
dashed border on a side of length 100 is stroked with dash pattern
`[6, 40/9]`. -/
theorem baseDash_amended (w : ℚ) :
    baseDashLength .dashed w = (if w < 3 then w * 3 else w * 2) ∧
    baseSpaceLength .dashed w = (if w < 3 then w * 2 else w) ∧
    baseDashLength .dotted w = w ∧
    baseSpaceLength .dotted w = w ∧
    dashSpace .dashed 2 100 = (6, 40 / 9) ∧
    BorderEv.makeDash 2 6 (40 / 9) ∈
      renderDashedDottedBorder 2 0
        [Seg.vector 0 0, Seg.vector 100 0, Seg.vector 100 20, Seg.vector 0 20]
        .dashed := by
  refine ⟨rfl, rfl, rfl, rfl, dashSpace_dashed_2_100, ?_⟩
  have hlen : borderSideLength 0
      [Seg.vector 0 0, Seg.vector 100 0, Seg.vector 100 20, Seg.vector 0 20] = 100 := by
    norm_num [borderSideLength, Seg.startX, Seg.endX]
  have h : dashSpace .dashed 2 (borderSideLength 0
      [Seg.vector 0 0, Seg.vector 100 0, Seg.vector 100 20, Seg.vector 0 20]) =
      (6, 40 / 9) := by rw [hlen, dashSpace_dashed_2_100]
  simp [renderDashedDottedBorder, h]

/-- C5 fails on the code in two ways.  First, the balancing block is not
gated on the dashed style: a 1px dotted border on a side of length 10 has
its space rebalanced from the base `1` to `4/5`.  Second, when the two
candidates are equally close to the base space the code picks `maxSpace`,
not `minSpace`: for a 3px dashed border on a side of length `138/5 = 27.6`
the candidates are `minSpace = 24/5` and `maxSpace = 6/5`, both at distance
`9/5` from the base space `3`, `maxSpace` is positive, and the code picks
`maxSpace = 6/5`. -/
theorem balance_style_and_tie_counterexample :
    dashSpace .dotted 1 10 = (1, 4 / 5) ∧
    (dashSpace .dotted 1 10).2 ≠ baseSpaceLength .dotted 1 ∧
    minSpace 6 3 (138 / 5) = 24 / 5 ∧
    maxSpace 6 3 (138 / 5) = 6 / 5 ∧
    |(3 : ℚ) - 24 / 5| = |(3 : ℚ) - 6 / 5| ∧
    (0 : ℚ) < 6 / 5 ∧
    dashSpace .dashed 3 (138 / 5) = (6, 6 / 5) ∧
    (dashSpace .dashed 3 (138 / 5)).2 ≠ minSpace 6 3 (138 / 5) := by
  refine ⟨dashSpace_dotted_1_10, ?_, minSpace_tie, maxSpace_tie, by norm_num,
    by norm_num, dashSpace_dashed_tie, ?_⟩
  · rw [dashSpace_dotted_1_10]
    norm_num [baseSpaceLength]
  · rw [dashSpace_dashed_tie, minSpace_tie]
    norm_num

/-- C5 amended: the balancing rule runs for dashed and dotted alike; in the
long-side branch the space becomes whichever of `minSpace` / `maxSpace` is
strictly closer to the base space, with non-positive `maxSpace` preferring
`minSpace` and exact ties preferring `maxSpace`; moreover `numberOfDashes ≥ 2`
there, and the two candidates tile the side exactly:
`n·dash + (n−1)·minSpace = length` and `(n+1)·dash + n·maxSpace = length`. -/
theorem balance_longSide_amended (style : BorderStyleDD) (w d s L : ℚ)
    (hd : d = baseDashLength style w) (hs : s = baseSpaceLength style w)
    (hw : 0 < w) (hlong : d * 2 + s < L) :
    dashSpace style w L =
      (d, if maxSpace d s L ≤ 0 ∨ |s - minSpace d s L| < |s - maxSpace d s L|
          then minSpace d s L else maxSpace d s L) ∧
    2 ≤ numberOfDashes d s L ∧
    (numberOfDashes d s L : ℚ) * d + ((numberOfDashes d s L : ℚ) - 1) * minSpace d s L = L ∧
    ((numberOfDashes d s L : ℚ) + 1) * d + (numberOfDashes d s L : ℚ) * maxSpace d s L = L := by
  have hdpos : 0 < d := by
    cases style <;> simp only [baseDashLength] at hd
    · rw [hd]; split <;> linarith
    · exact hd ▸ hw
  have hspos : 0 < s := by
    cases style <;> simp only [baseSpaceLength] at hs
    · rw [hs]; split <;> linarith
    · exact hs ▸ hw
  have hds : 0 < d + s := by linarith
  have hn2 : 2 ≤ numberOfDashes d s L := by
    rw [numberOfDashes]
    refine Int.le_floor.mpr ?_
    rw [show ((2 : ℤ) : ℚ) = 2 by norm_num, le_div_iff₀ hds]
    linarith
  have hnq : (2 : ℚ) ≤ (numberOfDashes d s L : ℚ) := by exact_mod_cast hn2
  refine ⟨?_, hn2, ?_, ?_⟩
  · rw [dashSpace, ← hd, ← hs, balanceDashSpace]
    rw [if_neg (by linarith), if_neg (by linarith)]
  · have hne : (numberOfDashes d s L : ℚ) - 1 ≠ 0 := by linarith
    rw [minSpace]
    field_simp
  · have hne : (numberOfDashes d s L : ℚ) ≠ 0 := by linarith
    rw [maxSpace]
    field_simp

/-! ### Radial gradient layer (C8) -/

/-- C8: a radial-gradient background layer is skipped when either computed
radius is non-positive; with equal radii the layer path is filled directly
with the radial shader of radius `rx`; with unequal radii the canvas is
translated to the box centre, scaled on the y-axis by `f = ry / rx`,
translated back, a rectangle over the inverse-scaled layer bounds is drawn
with the circular shader of radius `rx`, and the transform is wrapped in a
save/restore pair; applying the y-scale about the box centre to the drawn
rectangle's top and bottom edges recovers exactly the layer's `top` and
`top + height`, and in every case the trace holds as many saves as
restores. -/
theorem radialGradient_spec (shaderOk : Bool)
    (left top width height x y rx ry bl bt bw bh : ℚ) :
    ((rx ≤ 0 ∨ ry ≤ 0) →
      renderRadialGradientLayer shaderOk left top width height x y rx ry bl bt bw bh = []) ∧
    (0 < rx → rx = ry → shaderOk = true →
      renderRadialGradientLayer shaderOk left top width height x y rx ry bl bt bw bh =
        [CanvasEv.makeRadialShader (left + x) (top + y) rx, CanvasEv.drawPathEv 0]) ∧
    (0 < rx → 0 < ry → rx ≠ ry → shaderOk = true →
      renderRadialGradientLayer shaderOk left top width height x y rx ry bl bt bw bh =
        [CanvasEv.makeRadialShader (left + x) (top + y) rx, CanvasEv.save,
         CanvasEv.translate (bl + 1 / 2 * bw) (bt + 1 / 2 * bh),
         CanvasEv.concatM 1 0 0 0 (ry / rx) 0 0 0 1,
         CanvasEv.translate (-(bl + 1 / 2 * bw)) (-(bt + 1 / 2 * bh)),
         CanvasEv.drawRect left
           (1 / (ry / rx) * (top - (bt + 1 / 2 * bh)) + (bt + 1 / 2 * bh))
           (left + width)
           (1 / (ry / rx) * (top - (bt + 1 / 2 * bh)) + (bt + 1 / 2 * bh) +
             height * (1 / (ry / rx))),
         CanvasEv.restore] ∧
      ry / rx * (1 / (ry / rx) * (top - (bt + 1 / 2 * bh)) + (bt + 1 / 2 * bh) -
        (bt + 1 / 2 * bh)) + (bt + 1 / 2 * bh) = top ∧
      ry / rx * (1 / (ry / rx) * (top - (bt + 1 / 2 * bh)) + (bt + 1 / 2 * bh) +
        height * (1 / (ry / rx)) - (bt + 1 / 2 * bh)) + (bt + 1 / 2 * bh) =
        top + height) ∧
    (renderRadialGradientLayer shaderOk left top width height x y rx ry bl bt bw bh).countP
        CanvasEv.isSave =
      (renderRadialGradientLayer shaderOk left top width height x y rx ry bl bt bw bh).countP
        CanvasEv.isRestore := by
  refine ⟨?_, ?_, ?_, ?_⟩
  · intro h
    have hno : ¬ (rx > 0 ∧ ry > 0) := by
      rintro ⟨h1, h2⟩
      rcases h with h | h <;> linarith
    simp [renderRadialGradientLayer, hno]
  · intro h1 he hok
    subst he
    subst hok
    simp [renderRadialGradientLayer, h1]
  · intro h1 h2 hne hok
    subst hok
    have hrx : rx ≠ 0 := ne_of_gt h1
    have hry : ry ≠ 0 := ne_of_gt h2
    refine ⟨?_, ?_, ?_⟩
    · simp [renderRadialGradientLayer, h1, h2, hne]
    · field_simp
      ring
    · field_simp
      ring
  · by_cases hp : rx > 0 ∧ ry > 0
    · by_cases he : rx ≠ ry <;>
      by_cases hs : shaderOk <;>
        simp [renderRadialGradientLayer, hp, he, hs, List.countP_cons,
          CanvasEv.isSave, CanvasEv.isRestore]
    · simp [renderRadialGradientLayer, hp]

/-- Witness for `radialGradient_spec`: the elliptical branch at
`rx = 2, ry = 1` on a 10×20 layer, and the circular branch at
`rx = ry = 1`. -/
theorem radialGradient_spec_witness :
    (renderRadialGradientLayer true 0 0 10 20 0 0 2 1 0 0 10 20 =
        [CanvasEv.makeRadialShader (0 + 0) (0 + 0) 2, CanvasEv.save,
         CanvasEv.translate (0 + 1 / 2 * 10) (0 + 1 / 2 * 20),
         CanvasEv.concatM 1 0 0 0 (1 / 2) 0 0 0 1,
         CanvasEv.translate (-(0 + 1 / 2 * 10)) (-(0 + 1 / 2 * 20)),
         CanvasEv.drawRect 0
           (1 / (1 / 2) * (0 - (0 + 1 / 2 * 20)) + (0 + 1 / 2 * 20))
           (0 + 10)
           (1 / (1 / 2) * (0 - (0 + 1 / 2 * 20)) + (0 + 1 / 2 * 20) +
             20 * (1 / (1 / 2))),
         CanvasEv.restore] ∧
      (1 : ℚ) / 2 * (1 / (1 / 2) * (0 - (0 + 1 / 2 * 20)) + (0 + 1 / 2 * 20) -
        (0 + 1 / 2 * 20)) + (0 + 1 / 2 * 20) = 0 ∧
      (1 : ℚ) / 2 * (1 / (1 / 2) * (0 - (0 + 1 / 2 * 20)) + (0 + 1 / 2 * 20) +
        20 * (1 / (1 / 2)) - (0 + 1 / 2 * 20)) + (0 + 1 / 2 * 20) = 0 + 20) ∧
    renderRadialGradientLayer true 0 0 10 20 0 0 1 1 0 0 10 20 =
      [CanvasEv.makeRadialShader (0 + 0) (0 + 0) 1, CanvasEv.drawPathEv 0] := by
  refine ⟨?_, ?_⟩
  · have h := (radialGradient_spec true 0 0 10 20 0 0 2 1 0 0 10 20).2.2.1
      (by norm_num) (by norm_num) (by norm_num) rfl
    simpa using h
  · exact (radialGradient_spec true 0 0 10 20 0 0 1 1 0 0 10 20).2.1
      (by norm_num) rfl rfl

/-! ### Stacking-context walker (C1) -/

mutual
theorem renderStackGo_eq_spec : ∀ s : SC, renderStackGo s = paintOrderSpecGo s
  | SC.mk e neg nonInline floats inlC inlN zeroAuto pos => by
    rw [renderStackGo, paintOrderSpecGo]
    cases hv : e.visible
    · simp [hv]
    · simp [hv, renderSCL_eq_spec neg, renderSCL_eq_spec floats,
        renderSCL_eq_spec inlC, renderSCL_eq_spec zeroAuto, renderSCL_eq_spec pos]
theorem renderSCL_eq_spec : ∀ l : SCL, renderSCL l = paintOrderSpecList l
  | SCL.nil => rfl
  | SCL.cons c cs => by
    rw [renderSCL, paintOrderSpecList, renderStackGo_eq_spec c, renderSCL_eq_spec cs]
end

/-- C1: `renderStack` produces exactly the trace of the eight-step CSS
painting order (bucket after bucket in the fixed §4.7 order, each child
bucket in its stored order — the negative-z bucket being builder-sorted
ascending, this is most negative first), and when the context's root
element is invisible it produces nothing; the visibility gate followed by
`renderStackContent`'s eight steps is exactly how the source splits the
work. -/
theorem renderStack_painting_order (s : SC) :
    renderStack s = paintOrderSpecGo s ∧
    renderStack s = (if (s.element).visible then renderStackContent s else []) := by
  refine ⟨renderStackGo_eq_spec s, ?_⟩
  cases s with
  | mk e neg nonInline floats inlC inlN zeroAuto pos =>
    rw [renderStack, renderStackGo, renderStackContent]
    cases hv : e.visible <;> simp [SC.element, hv]

/-! ### Text node: shadow/fill order (C3) -/

/-- C3 is violated by the code: `renderTextNode` draws the main fill of a
glyph run first and the text shadows after it, so a shadow overlapping its
glyphs paints on top of them,
contradicting both the specification ("before the main fill") and CSS
text-shadow semantics (shadows paint underneath the text).  At a text node
with one run `"A"` and one declared shadow, the emitted trace starts with
the main fill draw and the shadow draw follows it; with two shadows the
shadows are indeed drawn in reverse declaration order (the part of the
claim the code does satisfy), but still after the main fill. -/
theorem renderTextNode_shadow_after_fill :
    renderTextNode [PaintLayer.fill] [⟨1, 1, 0, 0⟩] [] 0 1 0 0 [⟨['A'], 0, 0, 5, 2⟩] =
      [TextNodeEv.drawRunFill 0, TextNodeEv.saveEv, TextNodeEv.translateEv 1 1,
       TextNodeEv.drawRunShadow 0 0, TextNodeEv.restoreEv] ∧
    renderTextNode [PaintLayer.fill] [⟨1, 1, 0, 0⟩, ⟨2, 2, 0, 0⟩] [] 0 1 0 0
        [⟨['A'], 0, 0, 5, 2⟩] =
      [TextNodeEv.drawRunFill 0,
       TextNodeEv.saveEv, TextNodeEv.translateEv 2 2, TextNodeEv.drawRunShadow 0 1,
       TextNodeEv.restoreEv,
       TextNodeEv.saveEv, TextNodeEv.translateEv 1 1, TextNodeEv.drawRunShadow 0 0,
       TextNodeEv.restoreEv] := by
  have hA : hasNonWS ['A'] = true := by decide
  constructor <;>
    norm_num [renderTextNode, fillPassEvents, hA, List.enum]

/-! ### Per-grapheme font fallback (C7) -/

theorem stepLetter_acc (env : TextRunEnv) (ls : ℚ) (a : List TextRunEv) (x : ℚ)
    (g : List Char) :
    stepLetter env ls (a, x) g =
      (a ++ (stepLetter env ls ([], x) g).1, (stepLetter env ls ([], x) g).2) := by
  simp only [stepLetter]
  cases hfb : (if (env.font.glyphs g).length = 0 ∨ (env.font.glyphs g).any (fun id => id = 0)
      then env.fallbackTypeface g else none) <;> simp [hfb]

theorem renderLetters_acc (env : TextRunEnv) (ls : ℚ) :
    ∀ (letters : List (List Char)) (a : List TextRunEv) (x : ℚ),
      renderLetters env ls (a, x) letters =
        (a ++ (renderLetters env ls ([], x) letters).1,
         (renderLetters env ls ([], x) letters).2) := by
  intro letters
  induction letters with
  | nil => intro a x; simp [renderLetters]
  | cons g rest ih =>
    intro a x
    have h1 : renderLetters env ls (a, x) (g :: rest) =
        renderLetters env ls (stepLetter env ls (a, x) g) rest := rfl
    have h2 : renderLetters env ls ([], x) (g :: rest) =
        renderLetters env ls (stepLetter env ls ([], x) g) rest := rfl
    rw [h1, h2, stepLetter_acc]
    rcases hstep : stepLetter env ls ([], x) g with ⟨t, x1⟩
    rw [ih (a ++ t) x1, ih t x1]
    simp

/-- C7: when a grapheme's glyph lookup in the primary font yields no glyphs
or a zero glyph id and the fallback provider returns a typeface,
`renderTextWithLetterSpacing` draws that grapheme with a temporary fallback
font built at the primary font's size, deletes that temporary font
immediately after the draw and the width measurement, and advances the
running x by the fallback font's measured width plus the letter spacing
(the primary font's widths do not enter the advance). -/
theorem renderTextRun_missing_glyph_fallback (env : TextRunEnv) (ls x : ℚ)
    (text g : List Char) (rest : List (List Char)) (tf : ℕ)
    (hseg : env.segment text = g :: rest)
    (hmiss : (env.font.glyphs g).length = 0 ∨ (env.font.glyphs g).any (fun id => id = 0))
    (hfb : env.fallbackTypeface g = some tf)
    (hslow : ls ≠ 0 ∨ areGlyphsMissing env.font text = true) :
    renderTextWithLetterSpacing env ls x text =
      [TextRunEv.drawFallback g x tf env.font.size,
       TextRunEv.deleteFallbackFont tf env.font.size] ++
        (renderLetters env ls ([],
          x + ((env.fallbackFont tf env.font.size).glyphWidths
            (env.font.glyphs g)).headD 0 + ls) rest).1 := by
  have hcond : ¬ (ls = 0 ∧ ¬ areGlyphsMissing env.font text) := by
    rintro ⟨h0, hnm⟩
    rcases hslow with h | h
    · exact h h0
    · exact hnm (by simp [h])
  have hstep : stepLetter env ls ([], x) g =
      ([TextRunEv.drawFallback g x tf env.font.size,
        TextRunEv.deleteFallbackFont tf env.font.size],
       x + ((env.fallbackFont tf env.font.size).glyphWidths
         (env.font.glyphs g)).headD 0 + ls) := by
    simp only [stepLetter]
    rw [if_pos hmiss, hfb]
    simp
  rw [renderTextWithLetterSpacing, if_neg hcond, hseg]
  have h1 : renderLetters env ls ([], x) (g :: rest) =
      renderLetters env ls (stepLetter env ls ([], x) g) rest := rfl
  rw [h1, hstep, renderLetters_acc]

/-- Witness for `renderTextRun_missing_glyph_fallback`: a one-grapheme run
whose primary font (size 12) reports the missing-glyph id `0` and measures
width `5`, with a fallback provider returning typeface `7` whose font
measures width `2`. -/
theorem renderTextRun_missing_glyph_fallback_witness :
    renderTextWithLetterSpacing
      ⟨⟨fun _ => [0], fun _ => [5], 12⟩, fun _ => some 7,
        fun _ sz => ⟨fun _ => [3], fun _ => [2], sz⟩, fun t => [t]⟩ 1 0 ['A'] =
      [TextRunEv.drawFallback ['A'] 0 7 12, TextRunEv.deleteFallbackFont 7 12] := by
  have h := renderTextRun_missing_glyph_fallback
    ⟨⟨fun _ => [0], fun _ => [5], 12⟩, fun _ => some 7,
      fun _ sz => ⟨fun _ => [3], fun _ => [2], sz⟩, fun t => [t]⟩
    1 0 ['A'] ['A'] [] 7 rfl (Or.inr (by simp)) rfl (Or.inl (by norm_num))
  simpa [renderLetters] using h

/-- Witness for `balance_longSide_amended` at a 1px dotted border on a side
of length 10. -/
theorem balance_longSide_amended_witness :
    dashSpace .dotted 1 10 =
      (1, if maxSpace 1 1 10 ≤ 0 ∨ |1 - minSpace 1 1 10| < |1 - maxSpace 1 1 10|
          then minSpace 1 1 10 else maxSpace 1 1 10) ∧
    2 ≤ numberOfDashes 1 1 10 ∧
    (numberOfDashes 1 1 10 : ℚ) * 1 + ((numberOfDashes 1 1 10 : ℚ) - 1) * minSpace 1 1 10 = 10 ∧
    ((numberOfDashes 1 1 10 : ℚ) + 1) * 1 + (numberOfDashes 1 1 10 : ℚ) * maxSpace 1 1 10 = 10 :=
  balance_longSide_amended .dotted 1 1 1 10 rfl rfl (by norm_num) (by norm_num)

/-! ### Manual colour parsing (C6) -/

theorem takeWhile_isDigit_all (l : List Char) (h : ∀ x ∈ l, x.isDigit = true) :
    l.takeWhile Char.isDigit = l := by
  induction l with
  | nil => rfl
  | cons c cs ih =>
    rw [List.takeWhile_cons, h c (by simp), ih (fun x hx => h x (by simp [hx]))]
    simp

theorem jsSign_no_sign (c : Char) (cs : List Char) (h1 : c ≠ '-') (h2 : c ≠ '+') :
    jsSign (c :: cs) = (false, c :: cs) := by
  unfold jsSign
  split
  · rename_i heq; injection heq with ha _; exact absurd ha h1
  · rename_i heq; injection heq with ha _; exact absurd ha h2
  · rfl

theorem jsFracPart_nil : jsFracPart [] = ([], []) := rfl

theorem jsExpPart_nil : jsExpPart [] = 0 := rfl

/-- Parsing a plain non-empty digit string with `parseFloat` yields its decimal
value. -/
theorem parseFloatJS_digits (c : Char) (cs : List Char)
    (hall : ∀ x ∈ c :: cs, x.isDigit = true) :
    parseFloatJS (c :: cs) = some ((decDigitsVal (c :: cs) : ℚ)) := by
  have hcd : c.isDigit = true := hall c (by simp)
  have hcw : isJSWhitespace c = false := by
    cases hw : isJSWhitespace c
    · rfl
    · exfalso
      simp [isJSWhitespace] at hw
      rcases hw with rfl | rfl | rfl | rfl | rfl | rfl <;> exact absurd hcd (by decide)
  have hcm : c ≠ '-' := by rintro rfl; exact absurd hcd (by decide)
  have hcp : c ≠ '+' := by rintro rfl; exact absurd hcd (by decide)
  have htw : (c :: cs).takeWhile Char.isDigit = c :: cs := takeWhile_isDigit_all _ hall
  simp only [parseFloatJS]
  rw [List.dropWhile_cons, hcw]
  simp only [Bool.false_eq_true, if_false]
  rw [jsSign_no_sign c cs hcm hcp]
  simp only [htw, List.drop_length, jsFracPart_nil]
  rw [if_neg (by simp)]
  simp only [jsExpPart_nil]
  have h0 : decDigitsVal ([] : List Char) = 0 := rfl
  norm_num [h0]

set_option maxRecDepth 8000 in
theorem parseIntHex_toHex2 :
    ∀ n : Fin 256, parseIntHex (toHex2 n.val) = some (n.val : ℤ) := by decide

theorem takeWhile_ne_paren (inner tail : List Char) (h : ')' ∉ inner) :
    (inner ++ ')' :: tail).takeWhile (fun c => c ≠ ')') = inner := by
  induction inner with
  | nil => simp [List.takeWhile_cons]
  | cons c cs ih =>
    simp only [List.mem_cons, not_or] at h
    rw [List.cons_append, List.takeWhile_cons, ih h.2]
    simp [Ne.symm h.1]

theorem captureParen_append (inner tail : List Char) (hmem : ')' ∉ inner)
    (hne : inner ≠ []) :
    captureParen (inner ++ ')' :: tail) = some inner := by
  simp only [captureParen]
  rw [takeWhile_ne_paren _ _ hmem]
  rw [if_neg (by simpa using hne)]
  rw [List.drop_left]
  simp

theorem findRgbMatch_rgb (rest inner : List Char)
    (hcap : captureParen rest = some inner) :
    findRgbMatch ('r' :: 'g' :: 'b' :: '(' :: rest) = some inner := by
  rw [findRgbMatch]
  have h5 : ('r' :: 'g' :: 'b' :: '(' :: rest).take 5 ≠ ['r', 'g', 'b', 'a', '('] := by
    cases rest <;> simp
  rw [if_neg h5]
  simp only [List.take_succ_cons, List.take_zero, List.drop_succ_cons, List.drop_zero,
    eq_self_iff_true]
  rw [if_true, hcap]

theorem findRgbMatch_rgba (rest inner : List Char)
    (hcap : captureParen rest = some inner) :
    findRgbMatch ('r' :: 'g' :: 'b' :: 'a' :: '(' :: rest) = some inner := by
  rw [findRgbMatch]
  simp only [List.take_succ_cons, List.take_zero, List.drop_succ_cons, List.drop_zero,
    eq_self_iff_true]
  rw [if_true, hcap]

theorem splitComma_no_comma (l : List Char) (h : ',' ∉ l) : splitComma l = [l] := by
  induction l with
  | nil => rfl
  | cons c cs ih =>
    simp only [List.mem_cons, not_or] at h
    rw [splitComma, ih h.2, if_neg (Ne.symm h.1)]

theorem splitComma_append (l r : List Char) (h : ',' ∉ l) :
    splitComma (l ++ ',' :: r) = l :: splitComma r := by
  induction l with
  | nil =>
    show splitComma (',' :: r) = [] :: splitComma r
    rw [splitComma, if_pos rfl]
  | cons c cs ih =>
    simp only [List.mem_cons, not_or] at h
    rw [List.cons_append, splitComma, ih h.2, if_neg (Ne.symm h.1)]

theorem parseColor_none_eq_fallback (cs : List Char) :
    parseColor (fun _ => none) cs = parseColorFallback cs := rfl

theorem parseColorFallback_hex6 (r g b : Fin 256) :
    parseColorFallback ('#' :: (toHex2 r.val ++ toHex2 g.val ++ toHex2 b.val)) =
      ⟨some ((r.val : ℚ) / 255), some ((g.val : ℚ) / 255),
       some ((b.val : ℚ) / 255), some 1⟩ := by
  rw [parseColorFallback]
  simp only [List.take_succ_cons, List.take_zero, eq_self_iff_true]
  rw [if_true]
  show parseHexColor (toHex2 r.val ++ toHex2 g.val ++ toHex2 b.val) = _
  have hr : (toHex2 r.val ++ toHex2 g.val ++ toHex2 b.val).take 2 = toHex2 r.val := by
    rw [List.append_assoc]
    exact List.take_left' rfl
  have hg : ((toHex2 r.val ++ toHex2 g.val ++ toHex2 b.val).drop 2).take 2 =
      toHex2 g.val := by
    rw [List.append_assoc,
      List.drop_left' (show (toHex2 r.val).length = 2 from rfl)]
    exact List.take_left' rfl
  have hb : ((toHex2 r.val ++ toHex2 g.val ++ toHex2 b.val).drop 4).take 2 =
      toHex2 b.val := by
    rw [List.drop_left' (show (toHex2 r.val ++ toHex2 g.val).length = 4 from rfl)]
    exact List.take_of_length_le (le_of_eq rfl)
  have hlen : ¬ 6 < (toHex2 r.val ++ toHex2 g.val ++ toHex2 b.val).length := by
    simp [toHex2]
  rw [parseHexColor, hr, hg, hb, if_neg hlen]
  rw [parseIntHex_toHex2 r, parseIntHex_toHex2 g, parseIntHex_toHex2 b]
  simp [chanDiv255]

theorem parseColorFallback_hex8 (r g b a : Fin 256) :
    parseColorFallback
        ('#' :: (toHex2 r.val ++ toHex2 g.val ++ toHex2 b.val ++ toHex2 a.val)) =
      ⟨some ((r.val : ℚ) / 255), some ((g.val : ℚ) / 255),
       some ((b.val : ℚ) / 255), some ((a.val : ℚ) / 255)⟩ := by
  rw [parseColorFallback]
  simp only [List.take_succ_cons, List.take_zero, eq_self_iff_true]
  rw [if_true]
  show parseHexColor (toHex2 r.val ++ toHex2 g.val ++ toHex2 b.val ++ toHex2 a.val) = _
  have hr : (toHex2 r.val ++ toHex2 g.val ++ toHex2 b.val ++ toHex2 a.val).take 2 =
      toHex2 r.val := by
    rw [List.append_assoc, List.append_assoc]
    exact List.take_left' rfl
  have hg : ((toHex2 r.val ++ toHex2 g.val ++ toHex2 b.val ++ toHex2 a.val).drop 2).take 2 =
      toHex2 g.val := by
    rw [List.append_assoc, List.append_assoc,
      List.drop_left' (show (toHex2 r.val).length = 2 from rfl)]
    exact List.take_left' rfl
  have hb : ((toHex2 r.val ++ toHex2 g.val ++ toHex2 b.val ++ toHex2 a.val).drop 4).take 2 =
      toHex2 b.val := by
    rw [List.append_assoc (toHex2 r.val ++ toHex2 g.val),
      List.drop_left' (show (toHex2 r.val ++ toHex2 g.val).length = 4 from rfl)]
    exact List.take_left' rfl
  have ha : ((toHex2 r.val ++ toHex2 g.val ++ toHex2 b.val ++ toHex2 a.val).drop 6).take 2 =
      toHex2 a.val := by
    rw [List.drop_left'
      (show (toHex2 r.val ++ toHex2 g.val ++ toHex2 b.val).length = 6 from rfl)]
    exact List.take_of_length_le (le_of_eq rfl)
  have hlen : 6 < (toHex2 r.val ++ toHex2 g.val ++ toHex2 b.val ++ toHex2 a.val).length := by
    simp [toHex2]
  rw [parseHexColor, hr, hg, hb, if_pos hlen, ha]
  rw [parseIntHex_toHex2 r, parseIntHex_toHex2 g, parseIntHex_toHex2 b,
    parseIntHex_toHex2 a]
  simp [chanDiv255]

theorem parseColorFallback_rgb3 (s1 s2 s3 : List Char) (v1 v2 v3 : ℚ)
    (h1 : parseFloatJS (trimJS s1) = some v1)
    (h2 : parseFloatJS (trimJS s2) = some v2)
    (h3 : parseFloatJS (trimJS s3) = some v3)
    (hp1 : ')' ∉ s1) (hp2 : ')' ∉ s2) (hp3 : ')' ∉ s3)
    (hc1 : ',' ∉ s1) (hc2 : ',' ∉ s2) (hc3 : ',' ∉ s3) :
    parseColorFallback
        ('r' :: 'g' :: 'b' :: '(' :: (s1 ++ ',' :: s2 ++ ',' :: s3 ++ [')'])) =
      ⟨some (v1 / 255), some (v2 / 255), some (v3 / 255), some 1⟩ := by
  have hmem : ')' ∉ s1 ++ ',' :: (s2 ++ ',' :: s3) := by
    simp only [List.mem_append, List.mem_cons, not_or]
    exact ⟨hp1, by decide, hp2, by decide, hp3⟩
  have hcap : captureParen (s1 ++ ',' :: s2 ++ ',' :: s3 ++ [')']) =
      some (s1 ++ ',' :: (s2 ++ ',' :: s3)) := by
    rw [show s1 ++ ',' :: s2 ++ ',' :: s3 ++ [')'] =
        (s1 ++ ',' :: (s2 ++ ',' :: s3)) ++ ')' :: [] by simp]
    exact captureParen_append _ _ hmem (by simp)
  have hfind := findRgbMatch_rgb _ _ hcap
  rw [parseColorFallback, if_neg (by simp), hfind]
  dsimp only
  rw [splitComma_append _ _ hc1, splitComma_append _ _ hc2, splitComma_no_comma _ hc3]
  simp only [List.map_cons, List.map_nil, h1, h2, h3]
  norm_num [List.getD_cons_zero, List.getD_cons_succ]

theorem parseColorFallback_rgba4 (s1 s2 s3 s4 : List Char) (v1 v2 v3 v4 : ℚ)
    (h1 : parseFloatJS (trimJS s1) = some v1)
    (h2 : parseFloatJS (trimJS s2) = some v2)
    (h3 : parseFloatJS (trimJS s3) = some v3)
    (h4 : parseFloatJS (trimJS s4) = some v4)
    (hp1 : ')' ∉ s1) (hp2 : ')' ∉ s2) (hp3 : ')' ∉ s3) (hp4 : ')' ∉ s4)
    (hc1 : ',' ∉ s1) (hc2 : ',' ∉ s2) (hc3 : ',' ∉ s3) (hc4 : ',' ∉ s4) :
    parseColorFallback
        ('r' :: 'g' :: 'b' :: 'a' :: '('
          :: (s1 ++ ',' :: s2 ++ ',' :: s3 ++ ',' :: s4 ++ [')'])) =
      ⟨some (v1 / 255), some (v2 / 255), some (v3 / 255), some v4⟩ := by
  have hmem : ')' ∉ s1 ++ ',' :: (s2 ++ ',' :: (s3 ++ ',' :: s4)) := by
    simp only [List.mem_append, List.mem_cons, not_or]
    exact ⟨hp1, by decide, hp2, by decide, hp3, by decide, hp4⟩
  have hcap : captureParen (s1 ++ ',' :: s2 ++ ',' :: s3 ++ ',' :: s4 ++ [')']) =
      some (s1 ++ ',' :: (s2 ++ ',' :: (s3 ++ ',' :: s4))) := by
    rw [show s1 ++ ',' :: s2 ++ ',' :: s3 ++ ',' :: s4 ++ [')'] =
        (s1 ++ ',' :: (s2 ++ ',' :: (s3 ++ ',' :: s4))) ++ ')' :: [] by simp]
    exact captureParen_append _ _ hmem (by simp)
  have hfind := findRgbMatch_rgba _ _ hcap
  rw [parseColorFallback, if_neg (by simp), hfind]
  dsimp only
  rw [splitComma_append _ _ hc1, splitComma_append _ _ hc2, splitComma_append _ _ hc3,
    splitComma_no_comma _ hc4]
  simp only [List.map_cons, List.map_nil, h1, h2, h3, h4]
  norm_num [List.getD_cons_zero, List.getD_cons_succ]

/-- C6 fails on the code for the short hex forms: the manual fallback reads
hex digits pairwise, so for the 3-digit form `#fff` (CSS white) it produces
red `ff/255 = 1`, green `f/255 = 1/17` and a `NaN` blue channel — not the
colour white and not opaque black either. -/
theorem parseColor_shortHex_counterexample :
    parseColor (fun _ => none) ['#', 'f', 'f', 'f'] =
      ⟨some 1, some (1 / 17), none, some 1⟩ ∧
    parseColor (fun _ => none) ['#', 'f', 'f', 'f'] ≠
      ⟨some 1, some 1, some 1, some 1⟩ := by
  have hr : parseIntHex ['f', 'f'] = some 255 := by decide
  have hg : parseIntHex ['f'] = some 15 := by decide
  have hb : parseIntHex ([] : List Char) = none := by decide
  have h : parseColor (fun _ => none) ['#', 'f', 'f', 'f'] =
      ⟨some 1, some (1 / 17), none, some 1⟩ := by
    show parseColorFallback ['#', 'f', 'f', 'f'] = _
    rw [parseColorFallback]
    simp only [List.take_succ_cons, List.take_zero, eq_self_iff_true]
    rw [if_true]
    show parseHexColor ['f', 'f', 'f'] = _
    rw [parseHexColor]
    norm_num [hr, hg, hb, chanDiv255]
  exact ⟨h, by rw [h]; simp⟩

/-- C6 amended: when the backend string parser is unavailable or fails, the
manual fallback correctly parses 6-digit `#rrggbb` and 8-digit `#rrggbbaa`
hex forms and `rgb()` / `rgba()` functional forms with three or four
comma-separated numeric values (the fourth value is the alpha, taken as
is); any input that neither starts with `#` nor contains an `rgb(`/`rgba(`
group yields opaque black; but the 3- and 4-digit short hex forms
`#rgb[a]` are misparsed — the digits are consumed pairwise, so the blue
channel always comes from an empty slice and is `NaN`. -/
theorem parseColor_manual_amended :
    (∀ r g b : Fin 256,
      parseColor (fun _ => none)
          ('#' :: (toHex2 r.val ++ toHex2 g.val ++ toHex2 b.val)) =
        ⟨some ((r.val : ℚ) / 255), some ((g.val : ℚ) / 255),
         some ((b.val : ℚ) / 255), some 1⟩) ∧
    (∀ r g b a : Fin 256,
      parseColor (fun _ => none)
          ('#' :: (toHex2 r.val ++ toHex2 g.val ++ toHex2 b.val ++ toHex2 a.val)) =
        ⟨some ((r.val : ℚ) / 255), some ((g.val : ℚ) / 255),
         some ((b.val : ℚ) / 255), some ((a.val : ℚ) / 255)⟩) ∧
    (∀ (s1 s2 s3 : List Char) (v1 v2 v3 : ℚ),
      parseFloatJS (trimJS s1) = some v1 → parseFloatJS (trimJS s2) = some v2 →
      parseFloatJS (trimJS s3) = some v3 →
      ')' ∉ s1 → ')' ∉ s2 → ')' ∉ s3 → ',' ∉ s1 → ',' ∉ s2 → ',' ∉ s3 →
      parseColor (fun _ => none)
          ('r' :: 'g' :: 'b' :: '(' :: (s1 ++ ',' :: s2 ++ ',' :: s3 ++ [')'])) =
        ⟨some (v1 / 255), some (v2 / 255), some (v3 / 255), some 1⟩) ∧
    (∀ (s1 s2 s3 s4 : List Char) (v1 v2 v3 v4 : ℚ),
      parseFloatJS (trimJS s1) = some v1 → parseFloatJS (trimJS s2) = some v2 →
      parseFloatJS (trimJS s3) = some v3 → parseFloatJS (trimJS s4) = some v4 →
      ')' ∉ s1 → ')' ∉ s2 → ')' ∉ s3 → ')' ∉ s4 →
      ',' ∉ s1 → ',' ∉ s2 → ',' ∉ s3 → ',' ∉ s4 →
      parseColor (fun _ => none)
          ('r' :: 'g' :: 'b' :: 'a' :: '('
            :: (s1 ++ ',' :: s2 ++ ',' :: s3 ++ ',' :: s4 ++ [')'])) =
        ⟨some (v1 / 255), some (v2 / 255), some (v3 / 255), some v4⟩) ∧
    (∀ cs : List Char, cs.take 1 ≠ ['#'] → findRgbMatch cs = none →
      parseColor (fun _ => none) cs = opaqueBlack) ∧
    (∀ c1 c2 c3 : Char, (parseColor (fun _ => none) ['#', c1, c2, c3]).b = none) ∧
    (∀ c1 c2 c3 c4 : Char,
      (parseColor (fun _ => none) ['#', c1, c2, c3, c4]).b = none) := by
  refine ⟨parseColorFallback_hex6, parseColorFallback_hex8, ?_, ?_, ?_, ?_, ?_⟩
  · intro s1 s2 s3 v1 v2 v3 h1 h2 h3 hp1 hp2 hp3 hc1 hc2 hc3
    exact parseColorFallback_rgb3 s1 s2 s3 v1 v2 v3 h1 h2 h3 hp1 hp2 hp3 hc1 hc2 hc3
  · intro s1 s2 s3 s4 v1 v2 v3 v4 h1 h2 h3 h4 hp1 hp2 hp3 hp4 hc1 hc2 hc3 hc4
    exact parseColorFallback_rgba4 s1 s2 s3 s4 v1 v2 v3 v4 h1 h2 h3 h4
      hp1 hp2 hp3 hp4 hc1 hc2 hc3 hc4
  · intro cs hhash hfind
    show parseColorFallback cs = opaqueBlack
    rw [parseColorFallback, if_neg hhash, hfind]
  · intro c1 c2 c3
    rfl
  · intro c1 c2 c3 c4
    rfl

/-- Witness for `parseColor_manual_amended`: `#336699`,
`rgb(51,102,153)` and the unrecognised input `foo`. -/
theorem dropWhile_eq_self_of_all (l : List Char) (p : Char → Bool)
    (h : ∀ x ∈ l, p x = false) : l.dropWhile p = l := by
  cases l with
  | nil => rfl
  | cons a as =>
    rw [List.dropWhile_cons, h a (by simp)]
    simp

theorem parseColor_manual_amended_witness :
    parseColor (fun _ => none)
        ('#' :: (toHex2 (51 : Fin 256).val ++ toHex2 (102 : Fin 256).val ++
          toHex2 (153 : Fin 256).val)) =
      ⟨some (((51 : Fin 256).val : ℚ) / 255), some (((102 : Fin 256).val : ℚ) / 255),
       some (((153 : Fin 256).val : ℚ) / 255), some 1⟩ ∧
    parseColor (fun _ => none)
        ('r' :: 'g' :: 'b' :: '('
          :: (['5', '1'] ++ ',' :: ['1', '0', '2'] ++ ',' :: ['1', '5', '3'] ++ [')'])) =
      ⟨some (51 / 255), some (102 / 255), some (153 / 255), some 1⟩ ∧
    parseColor (fun _ => none) ['f', 'o', 'o'] = opaqueBlack := by
  have hf : ∀ (c : Char) (cs : List Char) (v : ℕ), (∀ x ∈ c :: cs, x.isDigit = true) →
      decDigitsVal (c :: cs) = v → parseFloatJS (trimJS (c :: cs)) = some ((v : ℕ) : ℚ) := by
    intro c cs v hall hv
    have hnw : ∀ x ∈ c :: cs, isJSWhitespace x = false := by
      intro x hx
      cases hw : isJSWhitespace x
      · rfl
      · exfalso
        simp [isJSWhitespace] at hw
        rcases hw with rfl | rfl | rfl | rfl | rfl | rfl <;>
          exact absurd (hall _ hx) (by decide)
    have ht : trimJS (c :: cs) = c :: cs := by
      rw [trimJS, dropWhile_eq_self_of_all _ _ hnw,
        dropWhile_eq_self_of_all _ _ (fun x hx => hnw x (by
          simp only [List.mem_reverse] at hx; exact hx)),
        List.reverse_reverse]
    rw [ht, parseFloatJS_digits c cs hall, hv]
  have h1 := hf '5' ['1'] 51 (by decide) (by decide)
  have h2 := hf '1' ['0', '2'] 102 (by decide) (by decide)
  have h3 := hf '1' ['5', '3'] 153 (by decide) (by decide)
  refine ⟨parseColor_manual_amended.1 51 102 153, ?_,
    parseColor_manual_amended.2.2.2.2.1 ['f', 'o', 'o'] (by decide) (by decide)⟩
  have h := parseColor_manual_amended.2.2.1 ['5', '1'] ['1', '0', '2'] ['1', '5', '3']
    ((51 : ℕ) : ℚ) ((102 : ℕ) : ℚ) ((153 : ℕ) : ℚ) h1 h2 h3
    (by decide) (by decide) (by decide) (by decide) (by decide) (by decide)
  simpa using h

end Html2PdfSkia
